import Mathlib

/-!
Shallow embedding of structuralAgentAnalysis.py: structural-connectivity metrics
of an agent given by a weighted connectivity matrix `cm` partitioned into
sensor, hidden and motor node index lists.  Matrix entries are embedded as
rationals; numpy boolean reductions become decidable comparisons; pandas
DataFrame rows become structures; Python exceptions become `Except.error`;
non-finite floats (nan or inf, as produced by numpy division by zero) become
`Option.none`.
-/

deriving instance DecidableEq for Except

namespace StructuralAgentAnalysis

/-- Connectivity matrix over `n` nodes: entry `i j` is the weight of the
directed edge from node `i` to node `j`; `0` means no edge. -/
abbrev Mat (n : ℕ) := Fin n → Fin n → ℚ

/-- An agent: connectivity matrix over `n` nodes and the sensor, hidden and
motor index lists (the fields `cm`, `sensor_ixs`, `hidden_ixs`, `motor_ixs`
and the node count `n_nodes = n` read by the analysis functions). -/
structure Agent (n : ℕ) where
  cm : Mat n
  sensor_ixs : List (Fin n)
  hidden_ixs : List (Fin n)
  motor_ixs : List (Fin n)

/-- Row sum of the matrix: `np.sum(cm, 1)` at row `i`. -/
def rowSum {n : ℕ} (cm : Mat n) (i : Fin n) : ℚ := ∑ j, cm i j

/-- Column sum of the matrix: `np.sum(cm, 0)` at column `j`. -/
def colSum {n : ℕ} (cm : Mat n) (j : Fin n) : ℚ := ∑ i, cm i j

/-- Result of the loop `for i in range(len(cm)): cm[i,i] = 0` run on a copy:
every diagonal entry set to 0, the rest unchanged. -/
def stripDiag {n : ℕ} (cm : Mat n) : Mat n := fun i j => if i = j then 0 else cm i j

/-- Sensors with outputs: `np.sum(np.sum(cm[sensor_ixs,:],1)>0)`. -/
def number_of_connected_sensors {n : ℕ} (cm : Mat n) (sensor_ixs : List (Fin n)) : ℕ :=
  (sensor_ixs.filter fun s => decide (0 < rowSum cm s)).length

/-- Motors with inputs: `np.sum(np.sum(cm[:,motor_ixs],0)>0)`. -/
def number_of_connected_motors {n : ℕ} (cm : Mat n) (motor_ixs : List (Fin n)) : ℕ :=
  (motor_ixs.filter fun m => decide (0 < colSum cm m)).length

/-- Nodes with inputs and outputs: after copying and (unless `allow_self_loops`)
zeroing the diagonal, `np.sum((np.sum(cm,0)*np.sum(cm,1))>0)`.  Note the count
ranges over all node indices of the matrix, whatever their type. -/
def number_of_densely_connected_nodes {n : ℕ} (cm_agent : Mat n)
    (allow_self_loops : Bool) : ℕ :=
  let cm := if allow_self_loops then cm_agent else stripDiag cm_agent
  ((List.finRange n).filter fun i => decide (0 < colSum cm i * rowSum cm i)).length

/-- Indices of nodes with inputs and outputs:
`np.where((np.sum(cm,0)*np.sum(cm,1))>0)[0]` after the same self-loop
treatment; `np.where` yields indices in ascending order, as does
`List.finRange`. -/
def densely_connected_nodes {n : ℕ} (cm_agent : Mat n)
    (allow_self_loops : Bool) : List (Fin n) :=
  let cm := if allow_self_loops then cm_agent else stripDiag cm_agent
  (List.finRange n).filter fun i => decide (0 < colSum cm i * rowSum cm i)

/-- The list `cS` built inside `connected_nodes`: sensors (in `sensor_ixs`
order) whose row sum over the self-loop-stripped matrix is positive. -/
def connected_sensor_list {n : ℕ} (a : Agent n) : List (Fin n) :=
  a.sensor_ixs.filter fun s => decide (0 < rowSum (stripDiag a.cm) s)

/-- The list `cM` built inside `connected_nodes`: motors (in `motor_ixs` order)
whose column sum over the self-loop-stripped matrix is positive. -/
def connected_motor_list {n : ℕ} (a : Agent n) : List (Fin n) :=
  a.motor_ixs.filter fun m => decide (0 < colSum (stripDiag a.cm) m)

/-- Sensors with outputs, motors with inputs, and nodes with both, computed on
a self-loop-stripped copy of `agent.cm`; `densely_connected_nodes` receives the
already-stripped matrix (and strips it again, idempotently).  The final
`np.sort(cS + cM + cH)` sorts the concatenated list, keeping duplicates. -/
def connected_nodes {n : ℕ} (a : Agent n) : List (Fin n) :=
  List.insertionSort (· ≤ ·)
    (connected_sensor_list a ++ connected_motor_list a ++
      densely_connected_nodes (stripDiag a.cm) false)

/-- Row of the DataFrame built by `number_of_connected_nodes_by_type`. -/
structure NumConnectedNodes where
  cN : ℕ
  cS : ℕ
  cH : ℕ
  cM : ℕ
  deriving DecidableEq

/-- Counts of connected sensors, densely connected nodes and connected motors,
all computed on the raw `agent.cm` (no self-loop stripping before the sensor
and motor counts; `number_of_densely_connected_nodes` strips internally), with
`cN` their sum. -/
def number_of_connected_nodes_by_type {n : ℕ} (a : Agent n) : NumConnectedNodes :=
  let cS := number_of_connected_sensors a.cm a.sensor_ixs
  let cH := number_of_densely_connected_nodes a.cm false
  let cM := number_of_connected_motors a.cm a.motor_ixs
  { cN := cS + cH + cM, cS := cS, cH := cH, cM := cM }

/-- Count of positive entries of `cm` restricted to rows `a_ixs` and columns
`b_ixs`: `np.sum(cm[np.ix_(a_ixs,b_ixs)]>0)` (duplicate indices, if any,
contribute repeatedly, as with `np.ix_`). -/
def number_of_connections {n : ℕ} (cm : Mat n) (a_ixs b_ixs : List (Fin n)) : ℕ :=
  (a_ixs.map fun i => (b_ixs.filter fun j => decide (0 < cm i j)).length).sum

/-- Row of the DataFrame built by `number_of_connections_by_type`. -/
structure NumConnections where
  s_m : ℕ
  s_h : ℕ
  h_h : ℕ
  h_m : ℕ
  deriving DecidableEq

/-- The index pool `ind` of `number_of_connections_by_type`:
`set(connected_nodes(agent))` when `connected_only`, else
`set(range(agent.n_nodes))`.  A Python set holds each element once and its
iteration order does not affect the counts, so it is embedded as the
deduplicated list. -/
def connection_index_pool {n : ℕ} (a : Agent n) (connected_only : Bool) : List (Fin n) :=
  if connected_only then (connected_nodes a).dedup else List.finRange n

/-- Connection counts between node types; each type list is the intersection of
the pool `ind` with the declared index list (`ind.intersection(...)`), embedded
as a filter of the deduplicated pool. -/
def number_of_connections_by_type {n : ℕ} (a : Agent n) (connected_only : Bool) :
    NumConnections :=
  let ind := connection_index_pool a connected_only
  let S := ind.filter fun v => decide (v ∈ a.sensor_ixs)
  let M := ind.filter fun v => decide (v ∈ a.motor_ixs)
  let H := ind.filter fun v => decide (v ∈ a.hidden_ixs)
  { s_m := number_of_connections a.cm S M
    s_h := number_of_connections a.cm S H
    h_h := number_of_connections a.cm H H
    h_m := number_of_connections a.cm H M }

/-- Directed weighted graph view, as built by
`nx.from_numpy_matrix(cm, create_using=nx.DiGraph())`: `m` nodes labelled
`0 .. m-1` and an edge `i -> j` of weight `adj i j` for every nonzero entry. -/
structure Digraph where
  m : ℕ
  adj : Mat m

/-- Edge test of the graph: entry nonzero. -/
def adjB (G : Digraph) (i j : Fin G.m) : Bool := decide (G.adj i j ≠ 0)

/-- One expansion step of forward reachability along an edge test `e`. -/
def reachStep (m : ℕ) (e : Fin m → Fin m → Bool) (s : Fin m → Bool) : Fin m → Bool :=
  fun j => s j || (List.finRange m).any fun i => s i && e i j

/-- Iterated expansion. -/
def reachIter (m : ℕ) (e : Fin m → Fin m → Bool) : ℕ → (Fin m → Bool) → (Fin m → Bool)
  | 0, s => s
  | k + 1, s => reachIter m e k (reachStep m e s)

/-- Reachability (by a directed path, possibly empty) along edge test `e`:
`m` expansion steps saturate, since a shortest path visits each node once. -/
def reachableWith (m : ℕ) (e : Fin m → Fin m → Bool) (i j : Fin m) : Bool :=
  reachIter m e m (fun k => k == i) j

/-- Directed reachability in `G`. -/
def reachableB (G : Digraph) (i j : Fin G.m) : Bool := reachableWith G.m (adjB G) i j

/-- Mutual reachability: `i` and `j` lie in the same strongly connected
component (the relation underlying `nx.strongly_connected_components`). -/
def mutualB (G : Digraph) (i j : Fin G.m) : Bool := reachableB G i j && reachableB G j i

/-- The strongly connected component of `v`, as the ascending list of its
members. -/
def sccClass (G : Digraph) (v : Fin G.m) : List (Fin G.m) :=
  (List.finRange G.m).filter fun u => mutualB G v u

/-- Size of the largest strongly connected component:
`len(max(nx.strongly_connected_components(G), key=len))`.  Every component is
the class of each of its members, so the maximum over all node classes equals
the maximum over components; on a graph with no nodes there is no component
and Python `max` raises `ValueError`. -/
def len_LSCC (G : Digraph) : Except String ℕ :=
  match (List.finRange G.m).map fun v => (sccClass G v).length with
  | [] => .error "ValueError: max arg is an empty sequence"
  | x :: xs => .ok (xs.foldl max x)

/-- Undirected edge test used for weak connectivity. -/
def wadjB (G : Digraph) (i j : Fin G.m) : Bool := adjB G i j || adjB G j i

/-- Membership of `u` in the weakly connected component of `v`. -/
def wccClass (G : Digraph) (v : Fin G.m) : List (Fin G.m) :=
  (List.finRange G.m).filter fun u => reachableWith G.m (wadjB G) v u

/-- Size of the largest weakly connected component:
`len(max(nx.weakly_connected_components(G), key=len))`. -/
def len_LWCC (G : Digraph) : Except String ℕ :=
  match (List.finRange G.m).map fun v => (wccClass G v).length with
  | [] => .error "ValueError: max arg is an empty sequence"
  | x :: xs => .ok (xs.foldl max x)

/-- Number of edges of the graph (`G.size()`). -/
def numEdges (G : Digraph) : ℕ :=
  ((List.finRange G.m).map fun i =>
    ((List.finRange G.m).filter fun j => adjB G i j).length).sum

/-- Number of edges whose endpoints lie in the same strongly connected
component; these are exactly the edges participating in cycles. -/
def numCycleEdges (G : Digraph) : ℕ :=
  ((List.finRange G.m).map fun i =>
    ((List.finRange G.m).filter fun j => adjB G i j && mutualB G i j).length).sum

/-- Flow hierarchy, `nx.flow_hierarchy`: fraction of edges not participating in
cycles, `1 - (edges inside strongly connected components) / (total edges)`.
With zero edges the Python integer division raises `ZeroDivisionError`. -/
def flow_hierarchy (G : Digraph) : Except String ℚ :=
  if numEdges G = 0 then .error "ZeroDivisionError: division by zero"
  else .ok (1 - (numCycleEdges G : ℚ) / (numEdges G : ℚ))

/-- Edge indicator as a number, for counting walks. -/
def adjN (G : Digraph) (i j : Fin G.m) : ℕ := if adjB G i j then 1 else 0

/-- Number of directed walks of length exactly `k` from `s` to `t`. -/
def countWalks (G : Digraph) : ℕ → Fin G.m → Fin G.m → ℕ
  | 0, s, t => if s = t then 1 else 0
  | k + 1, s, t => ((List.finRange G.m).map fun u => countWalks G k s u * adjN G u t).sum

/-- Shortest-path distance from `s` to `t`: least `k` admitting a walk of
length `k` (a shortest walk is a path, so `k < m` suffices when reachable);
`none` when `t` is unreachable from `s`. -/
def distB (G : Digraph) (s t : Fin G.m) : Option ℕ :=
  (List.range (G.m + 1)).find? fun k => decide (0 < countWalks G k s t)

/-- Number of shortest paths from `s` to `t` (0 when unreachable). -/
def sigmaB (G : Digraph) (s t : Fin G.m) : ℕ :=
  match distB G s t with
  | none => 0
  | some d => countWalks G d s t

/-- Fraction of shortest `s`-`t` paths passing through `v`: the pair
dependency summed by Brandes betweenness centrality. -/
def pairDependency (G : Digraph) (s t v : Fin G.m) : ℚ :=
  match distB G s v, distB G v t, distB G s t with
  | some d1, some d2, some d =>
      if d1 + d2 = d then
        ((countWalks G d1 s v * countWalks G d2 v t : ℕ) : ℚ) / (sigmaB G s t : ℚ)
      else 0
  | _, _, _ => 0

/-- Unnormalized betweenness centrality of `v`: sum of pair dependencies over
ordered pairs `s`, `t` distinct from each other and from `v`. -/
def rawBetweenness (G : Digraph) (v : Fin G.m) : ℚ :=
  ((List.finRange G.m).map fun s =>
    ((List.finRange G.m).map fun t =>
      if s ≠ t ∧ s ≠ v ∧ t ≠ v then pairDependency G s t v else 0).sum).sum

/-- Normalization factor used by `nx.betweenness_centrality` on a directed
graph with the default `normalized=True`: `1/((m-1)(m-2))` when `m > 2`,
otherwise no rescaling. -/
def bcScale (m : ℕ) : ℚ :=
  if 2 < m then 1 / (((m : ℚ) - 1) * ((m : ℚ) - 2)) else 1

/-- Betweenness centrality of node `v` (`nx.betweenness_centrality(G)[v]`). -/
def betweenness_centrality (G : Digraph) (v : Fin G.m) : ℚ :=
  bcScale G.m * rawBetweenness G v

/-- Average betweenness centrality.  The code sums `betweenness_centrality(G)`
over all nodes and divides: when `connected_only` it divides by
`number_of_densely_connected_nodes` of the adjacency matrix of `G`
(`nx.adjacency_matrix(G).todense()` recovers `G.adj`); numpy float division by
a zero count yields a non-finite value (nan), embedded as `Option.none`.  When
`connected_only` is false the code reads the name `agent`, which is not bound
in the function; Python raises `NameError` there, embedded as `Except.error`. -/
def average_betweenness_centrality (G : Digraph) (connected_only : Bool) :
    Except String (Option ℚ) :=
  if connected_only then
    let num_hidden := number_of_densely_connected_nodes G.adj false
    if num_hidden = 0 then .ok none
    else .ok (some ((((List.finRange G.m).map fun v =>
      betweenness_centrality G v).sum) / (num_hidden : ℚ)))
  else .error "NameError: name agent is not defined"

/-- Total degree of `v` in the directed graph: out-degree plus in-degree. -/
def nodeDegree (G : Digraph) (v : Fin G.m) : ℕ :=
  ((List.finRange G.m).filter fun j => adjB G v j).length +
  ((List.finRange G.m).filter fun i => adjB G i v).length

/-- Degree centrality (`nx.degree_centrality`): degree divided by `m - 1`;
for a graph with at most one node networkx returns 1 for every node. -/
def degree_centrality (G : Digraph) (v : Fin G.m) : ℚ :=
  if G.m ≤ 1 then 1 else (nodeDegree G v : ℚ) / ((G.m : ℚ) - 1)

/-- Average degree centrality: mean of the degree centralities over the nodes
of `G`; with zero nodes the final Python division raises `ZeroDivisionError`. -/
def average_degree_centrality (G : Digraph) : Except String ℚ :=
  if G.m = 0 then .error "ZeroDivisionError: division by zero"
  else .ok (((List.finRange G.m).map fun v => degree_centrality G v).sum / (G.m : ℚ))

/-- The induced subgraph on `ind_con = connected_nodes(agent)`:
`agent.cm[np.ix_(ind_con, ind_con)]`, nodes relabelled `0 .. len(ind_con)-1`
(duplicate indices in `ind_con`, when present, yield duplicated rows and
columns, exactly as with `np.ix_`). -/
def inducedSubgraph {n : ℕ} (a : Agent n) : Digraph :=
  let ind := connected_nodes a
  ⟨ind.length, fun k l => a.cm (ind.get k) (ind.get l)⟩

/-- Modelled from the spec: `get_graph(agent)` (utils.py, not in src) is the
external full-graph constructor returning the directed graph over all declared
nodes with the same edge-weight convention as the induced-subgraph builder. -/
def get_graph {n : ℕ} (a : Agent n) : Digraph := ⟨n, a.cm⟩

/-- Row of the DataFrame returned by `fullStructuralAnalysis`, fields in
column order. -/
structure StructuralReport where
  cN : ℕ
  cS : ℕ
  cH : ℕ
  cM : ℕ
  s_m : ℕ
  s_h : ℕ
  h_h : ℕ
  h_m : ℕ
  len_LSCC : ℕ
  len_LWCC : ℕ
  flow_hierarchy : ℚ
  av_betweenness_centrality : Option ℚ
  av_degree_centrality : ℚ
  deriving DecidableEq

/-- Full analysis: node counts joined with connection counts joined with the
component metrics computed on the induced connected subgraph (when
`connected_only`) or on the full graph from `get_graph`.  The components dict
evaluates `len_LSCC`, `len_LWCC`, `flow_hierarchy`,
`average_betweenness_centrality`, `average_degree_centrality` in that order;
the first Python exception propagates, embedded by `Except.bind`. -/
def fullStructuralAnalysis {n : ℕ} (a : Agent n) (connected_only : Bool) :
    Except String StructuralReport :=
  let nd := number_of_connected_nodes_by_type a
  let nc := number_of_connections_by_type a connected_only
  let G := if connected_only then inducedSubgraph a else get_graph a
  (len_LSCC G).bind fun l1 =>
  (len_LWCC G).bind fun l2 =>
  (flow_hierarchy G).bind fun fh =>
  (average_betweenness_centrality G connected_only).bind fun abc =>
  (average_degree_centrality G).bind fun adc =>
  .ok ⟨nd.cN, nd.cS, nd.cH, nd.cM, nc.s_m, nc.s_h, nc.h_h, nc.h_m, l1, l2, fh, abc, adc⟩

/-- Column list of the DataFrame of `number_of_connected_nodes_by_type`
(insertion order of its dict literal). -/
def connectedNodesCols : List String := ["cN", "cS", "cH", "cM"]

/-- Column list of the DataFrame of `number_of_connections_by_type`. -/
def connectionsCols : List String := ["s_m", "s_h", "h_h", "h_m"]

/-- Column list of the components DataFrame built in `fullStructuralAnalysis`. -/
def componentsCols : List String :=
  ["len_LSCC", "len_LWCC", "flow_hierarchy", "av_betweenness_centrality",
   "av_degree_centrality"]

/-- Column order of the full report: `df.join` appends columns, so the full
report columns are the three lists concatenated. -/
def fullReportCols : List String := connectedNodesCols ++ connectionsCols ++ componentsCols

/-- A pandas DataFrame, reduced to what the claims need: its ordered column
names and its rows of cells, a missing value (NaN) being `none`. -/
structure DataFrame where
  cols : List String
  rows : List (List (Option ℚ))

/-- Placeholder report: `pd.DataFrame(dtype=float, columns=[...], index =
range(index_num))` — `index_num` rows, one all-NaN cell per column. -/
def emptyStructuralAnalysis (index_num : ℕ) : DataFrame :=
  { cols := ["cN", "cS", "cH", "cM", "s_m", "s_h", "h_h", "h_m", "len_LSCC",
             "len_LWCC", "flow_hierarchy", "av_betweenness_centrality",
             "av_degree_centrality"]
    rows := (List.range index_num).map fun _ =>
      List.replicate (13 : ℕ) (none : Option ℚ) }

end StructuralAgentAnalysis

namespace StructuralAgentAnalysis

/-- Example agent from the spec scenario: 4 nodes, sensor 0, hidden 1 and 2,
motor 3, weight-1 edges 0 to 1, 1 to 2, 2 to 1, 2 to 3. -/
def exampleCm : Mat 4 := ![![0,1,0,0], ![0,0,1,0], ![0,1,0,1], ![0,0,0,0]]

/-- The example agent of the spec scenario. -/
def exampleAgent : Agent 4 := ⟨exampleCm, [0], [1, 2], [3]⟩

/-- Agent whose only positive weight is a self-loop on its sensor: 2 nodes,
sensor 0, no hidden node, motor 1, single edge 0 to 0. -/
def selfLoopSensorAgent : Agent 2 := ⟨![![1, 0], ![0, 0]], [0], [], [1]⟩

/-- Agent with a sensor that also has an incoming edge: 2 nodes, sensor 0, no
hidden node, motor 1, edges 0 to 1 and 1 to 0. -/
def crossAgent : Agent 2 := ⟨![![0, 1], ![1, 0]], [0], [], [1]⟩

/-- Fully disconnected 3-node agent: sensor 0, hidden 1, motor 2, all-zero
connectivity matrix. -/
def zeroAgent : Agent 3 := ⟨![![0, 0, 0], ![0, 0, 0], ![0, 0, 0]], [0], [1], [2]⟩

/-- Two-node graph with no edges. -/
def zeroDigraph : Digraph := ⟨2, ![![0, 0], ![0, 0]]⟩

end StructuralAgentAnalysis

namespace StructuralAgentAnalysis

/-! Helper lemmas shared by the claim theorems. -/

theorem rowSum_stripDiag {n : ℕ} (cm : Mat n) (i : Fin n) :
    rowSum (stripDiag cm) i = rowSum cm i - cm i i := by
  have h : ∀ j, (if i = j then (0 : ℚ) else cm i j) =
      cm i j - (if i = j then cm i j else 0) := by
    intro j; by_cases hj : i = j <;> simp [hj]
  simp only [rowSum, stripDiag, h]
  rw [Finset.sum_sub_distrib, Finset.sum_ite_eq]
  simp

theorem colSum_stripDiag {n : ℕ} (cm : Mat n) (j : Fin n) :
    colSum (stripDiag cm) j = colSum cm j - cm j j := by
  have h : ∀ i, (if i = j then (0 : ℚ) else cm i j) =
      cm i j - (if i = j then cm i j else 0) := by
    intro i; by_cases hi : i = j <;> simp [hi]
  simp only [colSum, stripDiag, h]
  rw [Finset.sum_sub_distrib, Finset.sum_ite_eq']
  simp

theorem stripDiag_idem {n : ℕ} (cm : Mat n) : stripDiag (stripDiag cm) = stripDiag cm := by
  funext i j
  by_cases h : i = j <;> simp [stripDiag, h]

theorem sum_pos_iff_exists {n : ℕ} (f : Fin n → ℚ) (hf : ∀ j, 0 ≤ f j) :
    0 < ∑ j, f j ↔ ∃ j, 0 < f j := by
  constructor
  · intro h
    by_contra hc
    push_neg at hc
    have hz : ∑ j, f j = 0 := Finset.sum_eq_zero fun j _ => le_antisymm (hc j) (hf j)
    rw [hz] at h
    exact lt_irrefl 0 h
  · rintro ⟨j, hj⟩
    exact Finset.sum_pos' (fun i _ => hf i) ⟨j, Finset.mem_univ j, hj⟩

theorem stripDiag_nonneg {n : ℕ} (cm : Mat n) (hpos : ∀ i j, 0 ≤ cm i j) :
    ∀ i j, 0 ≤ stripDiag cm i j := by
  intro i j
  by_cases h : i = j <;> simp [stripDiag, h, hpos i j]

end StructuralAgentAnalysis

namespace StructuralAgentAnalysis

/-! Claim theorems. -/

/-- C1 (counterexample): for the agent whose sensor carries only a self-loop,
`number_of_connected_nodes_by_type` counts sensor outputs on the raw matrix
while `connected_nodes` strips self-loops first, so `cN` is 1 but the
connected-node sequence is empty. -/
theorem cN_ne_len_connected_nodes_on_selfloop :
    (number_of_connected_nodes_by_type selfLoopSensorAgent).cN ≠
      (connected_nodes selfLoopSensorAgent).length := by
  with_unfolding_all decide

/-- C1 (amended): for every agent whose sensors and motors carry no self-loop
weight, `cN` equals the length of the `connected_nodes` sequence and each
per-group count equals the length of the corresponding index sequence. -/
theorem counts_match_index_sequences {n : ℕ} (a : Agent n)
    (hS : ∀ s ∈ a.sensor_ixs, a.cm s s = 0)
    (hM : ∀ m ∈ a.motor_ixs, a.cm m m = 0) :
    (number_of_connected_nodes_by_type a).cN = (connected_nodes a).length ∧
    (number_of_connected_nodes_by_type a).cS = (connected_sensor_list a).length ∧
    (number_of_connected_nodes_by_type a).cH =
      (densely_connected_nodes (stripDiag a.cm) false).length ∧
    (number_of_connected_nodes_by_type a).cM = (connected_motor_list a).length := by
  have hsen : number_of_connected_sensors a.cm a.sensor_ixs =
      (connected_sensor_list a).length := by
    unfold number_of_connected_sensors connected_sensor_list
    congr 1
    apply List.filter_congr
    intro s hs
    rw [rowSum_stripDiag, hS s hs, sub_zero]
  have hmot : number_of_connected_motors a.cm a.motor_ixs =
      (connected_motor_list a).length := by
    unfold number_of_connected_motors connected_motor_list
    congr 1
    apply List.filter_congr
    intro m hm
    rw [colSum_stripDiag, hM m hm, sub_zero]
  have hden : number_of_densely_connected_nodes a.cm false =
      (densely_connected_nodes (stripDiag a.cm) false).length := by
    simp only [number_of_densely_connected_nodes, densely_connected_nodes,
      Bool.false_eq_true, if_false, stripDiag_idem]
  have hlen : (connected_nodes a).length =
      (connected_sensor_list a).length + (connected_motor_list a).length +
        (densely_connected_nodes (stripDiag a.cm) false).length := by
    unfold connected_nodes
    rw [(List.perm_insertionSort _ _).length_eq]
    simp [List.length_append, Nat.add_assoc]
  refine ⟨?_, hsen, hden, hmot⟩
  simp only [number_of_connected_nodes_by_type]
  rw [hsen, hmot, hden, hlen]
  omega

/-- C1 (witness for the amended theorem) at the spec scenario agent. -/
theorem counts_match_index_sequences_witness :
    (∀ s ∈ exampleAgent.sensor_ixs, exampleAgent.cm s s = 0) ∧
    (number_of_connected_nodes_by_type exampleAgent).cN =
      (connected_nodes exampleAgent).length :=
  ⟨by with_unfolding_all decide,
    (counts_match_index_sequences exampleAgent
      (by with_unfolding_all decide) (by with_unfolding_all decide)).1⟩

/-- C2: the spec scenario agent yields counts cS=1, cH=2, cM=1, cN=4,
connection counts s_h=1, h_h=2, h_m=1, s_m=0, largest strongly connected
component of size 2 with node set consisting of nodes 1 and 2, and largest
weakly connected component of size 4. -/
theorem spec_scenario_results :
    (fullStructuralAnalysis exampleAgent true).map
      (fun r => (r.cS, r.cH, r.cM, r.cN)) = .ok (1, 2, 1, 4) ∧
    (fullStructuralAnalysis exampleAgent true).map
      (fun r => (r.s_h, r.h_h, r.h_m, r.s_m)) = .ok (1, 2, 1, 0) ∧
    (fullStructuralAnalysis exampleAgent true).map
      (fun r => (r.len_LSCC, r.len_LWCC)) = .ok (2, 4) ∧
    ((List.finRange (inducedSubgraph exampleAgent).m).map fun v =>
      (sccClass (inducedSubgraph exampleAgent) v).map Fin.val) =
        [[0], [1, 2], [1, 2], [3]] := by
  with_unfolding_all decide

/-- Spec-side definition, modelled from the words of claim C3: the number of
indices of the hidden group that, after self-loops are stripped, have at least
one positive outgoing edge and at least one positive incoming edge. -/
def spec_hidden_densely_count {n : ℕ} (a : Agent n) : ℕ :=
  (a.hidden_ixs.filter fun h =>
    decide ((∃ j, 0 < stripDiag a.cm h j) ∧ (∃ j, 0 < stripDiag a.cm j h))).length

/-- C3 (counterexample): for the agent whose sensor has both an incoming and
an outgoing edge, `cH` is 2 although the hidden group is empty — indices
outside the hidden group do contribute to `cH`. -/
theorem cH_ne_hidden_densely_count :
    (number_of_connected_nodes_by_type crossAgent).cH ≠
      spec_hidden_densely_count crossAgent := by
  with_unfolding_all decide

/-- C3 (amended): for every agent with a nonnegative connectivity matrix, `cH`
counts the indices of any group (not only hidden ones) that, after self-loops
are stripped, have at least one positive outgoing and at least one positive
incoming edge. -/
theorem cH_counts_all_inout_nodes {n : ℕ} (a : Agent n)
    (hpos : ∀ i j, 0 ≤ a.cm i j) :
    (number_of_connected_nodes_by_type a).cH =
      ((List.finRange n).filter fun i =>
        decide ((∃ j, 0 < stripDiag a.cm i j) ∧ (∃ j, 0 < stripDiag a.cm j i))).length := by
  have hpos' := stripDiag_nonneg a.cm hpos
  simp only [number_of_connected_nodes_by_type, number_of_densely_connected_nodes,
    Bool.false_eq_true, if_false]
  congr 1
  apply List.filter_congr
  intro i _
  rw [decide_eq_decide]
  have hr : 0 ≤ rowSum (stripDiag a.cm) i :=
    Finset.sum_nonneg fun j _ => hpos' i j
  have hc : 0 ≤ colSum (stripDiag a.cm) i :=
    Finset.sum_nonneg fun j _ => hpos' j i
  rw [mul_pos_iff]
  constructor
  · rintro (⟨h1, h2⟩ | ⟨h1, _⟩)
    · exact ⟨(sum_pos_iff_exists _ fun j => hpos' i j).mp h2,
        (sum_pos_iff_exists _ fun j => hpos' j i).mp h1⟩
    · exact absurd h1 (not_lt.mpr hc)
  · rintro ⟨⟨j, hj⟩, ⟨k, hk⟩⟩
    left
    exact ⟨(sum_pos_iff_exists _ fun l => hpos' l i).mpr ⟨k, hk⟩,
      (sum_pos_iff_exists _ fun l => hpos' i l).mpr ⟨j, hj⟩⟩

/-- C3 (witness for the amended theorem) at the cross agent. -/
theorem cH_counts_all_inout_nodes_witness :
    (∀ i j, (0 : ℚ) ≤ crossAgent.cm i j) ∧
    (number_of_connected_nodes_by_type crossAgent).cH =
      ((List.finRange 2).filter fun i =>
        decide ((∃ j, 0 < stripDiag crossAgent.cm i j) ∧
          (∃ j, 0 < stripDiag crossAgent.cm j i))).length :=
  ⟨by with_unfolding_all decide,
    cH_counts_all_inout_nodes crossAgent (by with_unfolding_all decide)⟩

/-- C4 (counterexample): for the cross agent the connected-node sequence is
`[0, 0, 1, 1]` — the sensor and the motor each also qualify as densely
connected, so the returned sequence contains duplicate indices. -/
theorem connected_nodes_has_duplicates :
    connected_nodes crossAgent = [0, 0, 1, 1] ∧
    ¬ (connected_nodes crossAgent).Nodup := by
  with_unfolding_all decide

/-- C4 (amended): for every agent, `connected_nodes` is in ascending
(nondecreasing) numeric order and is, up to that ordering, exactly the
concatenation of the connected sensors, the connected motors and the densely
connected nodes of any group — so an index may appear more than once. -/
theorem connected_nodes_sorted_perm {n : ℕ} (a : Agent n) :
    (connected_nodes a).Sorted (· ≤ ·) ∧
    List.Perm (connected_nodes a)
      (connected_sensor_list a ++ connected_motor_list a ++
        densely_connected_nodes (stripDiag a.cm) false) ∧
    ∀ v : Fin n, v ∈ connected_nodes a ↔
      (v ∈ connected_sensor_list a ∨ v ∈ connected_motor_list a ∨
        v ∈ densely_connected_nodes (stripDiag a.cm) false) := by
  refine ⟨List.sorted_insertionSort _ _, List.perm_insertionSort _ _, ?_⟩
  intro v
  unfold connected_nodes
  rw [(List.perm_insertionSort _ _).mem_iff]
  simp [List.mem_append, or_assoc]

/-- C5 (code evaluated at the failing input): the `connected_only = False`
branch of `average_betweenness_centrality` reads the name `agent`, which is
not a parameter and not in scope, so every call with `connected_only = False`
raises `NameError` instead of dividing by the declared hidden-node count. -/
theorem avg_betweenness_false_branch_name_error (G : Digraph) :
    average_betweenness_centrality G false =
      .error "NameError: name agent is not defined" := rfl

/-- C6: with zero edges `flow_hierarchy` raises `ZeroDivisionError`, and with
a zero count of densely connected nodes `average_betweenness_centrality` with
`connected_only = True` yields a NaN-bearing result (`none`); neither returns
a silent numeric 0 or 1. -/
theorem division_by_zero_surfaced :
    (∀ G : Digraph, numEdges G = 0 →
      flow_hierarchy G = .error "ZeroDivisionError: division by zero") ∧
    (∀ G : Digraph, number_of_densely_connected_nodes G.adj false = 0 →
      average_betweenness_centrality G true = .ok none) := by
  constructor
  · intro G h
    simp [flow_hierarchy, h]
  · intro G h
    simp [average_betweenness_centrality, h]

/-- C6 (witness) at the two-node empty graph. -/
theorem division_by_zero_surfaced_witness :
    (numEdges zeroDigraph = 0 ∧
      flow_hierarchy zeroDigraph = .error "ZeroDivisionError: division by zero") ∧
    (number_of_densely_connected_nodes zeroDigraph.adj false = 0 ∧
      average_betweenness_centrality zeroDigraph true = .ok none) :=
  ⟨⟨by with_unfolding_all decide,
      division_by_zero_surfaced.1 zeroDigraph (by with_unfolding_all decide)⟩,
    ⟨by with_unfolding_all decide,
      division_by_zero_surfaced.2 zeroDigraph (by with_unfolding_all decide)⟩⟩

/-- A graph with no nodes has no strongly connected component, and Python
`max` over the empty component sequence raises `ValueError`. -/
theorem len_LSCC_of_no_nodes (m : ℕ) (adj : Mat m) (hm : m = 0) :
    len_LSCC ⟨m, adj⟩ = .error "ValueError: max arg is an empty sequence" := by
  subst hm
  rfl

/-- C9: `emptyStructuralAnalysis 3` has exactly 3 rows of 13 absent (NaN)
cells each, and its column list is exactly the full-report schema
`cN, cS, cH, cM, s_m, s_h, h_h, h_m, len_LSCC, len_LWCC, flow_hierarchy,
av_betweenness_centrality, av_degree_centrality`. -/
theorem empty_analysis_schema :
    (emptyStructuralAnalysis 3).rows =
      List.replicate 3 (List.replicate 13 (none : Option ℚ)) ∧
    (emptyStructuralAnalysis 3).cols = fullReportCols ∧
    fullReportCols.length = 13 := by
  with_unfolding_all decide

/-- C10: for every agent whose connected-node sequence is empty,
`fullStructuralAnalysis` with `connected_only = True` builds a graph with zero
nodes and propagates the `ValueError` raised by the largest-component
computation instead of returning any report. -/
theorem full_analysis_raises_when_no_connected {n : ℕ} (a : Agent n)
    (h : connected_nodes a = []) :
    fullStructuralAnalysis a true =
      .error "ValueError: max arg is an empty sequence" := by
  have hm : (connected_nodes a).length = 0 := by rw [h]; rfl
  simp only [fullStructuralAnalysis, if_true, inducedSubgraph]
  rw [len_LSCC_of_no_nodes _ _ hm]
  rfl

/-- C10 (witness) at the all-zero 3-node agent. -/
theorem full_analysis_raises_witness :
    connected_nodes zeroAgent = [] ∧
    fullStructuralAnalysis zeroAgent true =
      .error "ValueError: max arg is an empty sequence" :=
  ⟨by with_unfolding_all decide,
    full_analysis_raises_when_no_connected zeroAgent (by with_unfolding_all decide)⟩

end StructuralAgentAnalysis

namespace StructuralAgentAnalysis

/-! Setup and helper lemmas for the edge-monotonicity claim. -/

/-- The matrix obtained by the single assignment `cm[i, j] = w`. -/
def updateEntry {n : ℕ} (cm : Mat n) (i j : Fin n) (w : ℚ) : Mat n :=
  fun x y => if x = i ∧ y = j then w else cm x y

/-- The agent with one entry of its connectivity matrix replaced. -/
def updateAgent {n : ℕ} (a : Agent n) (i j : Fin n) (w : ℚ) : Agent n :=
  { a with cm := updateEntry a.cm i j w }

theorem length_filter_mono {α : Type} (p q : α → Bool) (l : List α)
    (h : ∀ x ∈ l, p x = true → q x = true) :
    (l.filter p).length ≤ (l.filter q).length := by
  induction l with
  | nil => simp
  | cons a t ih =>
    have ht : ∀ x ∈ t, p x = true → q x = true := fun x hx => h x (List.mem_cons_of_mem a hx)
    by_cases hp : p a = true
    · have hq := h a (List.mem_cons_self a t) hp
      simp only [List.filter_cons, hp, hq, if_true, List.length_cons]
      exact Nat.succ_le_succ (ih ht)
    · rw [List.filter_cons, if_neg hp]
      by_cases hq : q a = true
      · rw [List.filter_cons, if_pos hq]
        exact Nat.le_trans (ih ht) (Nat.le_succ _)
      · rw [List.filter_cons, if_neg hq]
        exact ih ht

theorem updateEntry_pos_mono {n : ℕ} (cm : Mat n) (i j : Fin n) (w : ℚ)
    (_hij : cm i j = 0) (hw : 0 < w) :
    ∀ x y, 0 < cm x y → 0 < updateEntry cm i j w x y := by
  intro x y hxy
  unfold updateEntry
  by_cases h : x = i ∧ y = j
  · rw [if_pos h]; exact hw
  · rw [if_neg h]; exact hxy

theorem stripDiag_update_le {n : ℕ} (cm : Mat n) (i j : Fin n) (w : ℚ)
    (hij : cm i j = 0) (hw : 0 < w) :
    ∀ x y, stripDiag cm x y ≤ stripDiag (updateEntry cm i j w) x y := by
  intro x y
  unfold stripDiag updateEntry
  by_cases hxy : x = y
  · simp [hxy]
  · rw [if_neg hxy, if_neg hxy]
    by_cases h : x = i ∧ y = j
    · rw [if_pos h, h.1, h.2, hij]
      exact le_of_lt hw
    · rw [if_neg h]

theorem rowSum_mono {n : ℕ} (cm cm' : Mat n) (hle : ∀ x y, cm x y ≤ cm' x y)
    (i : Fin n) : rowSum cm i ≤ rowSum cm' i :=
  Finset.sum_le_sum fun j _ => hle i j

theorem colSum_mono {n : ℕ} (cm cm' : Mat n) (hle : ∀ x y, cm x y ≤ cm' x y)
    (j : Fin n) : colSum cm j ≤ colSum cm' j :=
  Finset.sum_le_sum fun i _ => hle i j

theorem mul_sums_pos_iff {n : ℕ} (cm : Mat n) (hpos : ∀ x y, 0 ≤ cm x y) (i : Fin n) :
    0 < colSum cm i * rowSum cm i ↔ 0 < colSum cm i ∧ 0 < rowSum cm i := by
  have hc : 0 ≤ colSum cm i := Finset.sum_nonneg fun j _ => hpos j i
  constructor
  · intro h
    rcases mul_pos_iff.mp h with ⟨h1, h2⟩ | ⟨h1, _⟩
    · exact ⟨h1, h2⟩
    · exact absurd h1 (not_lt.mpr hc)
  · rintro ⟨h1, h2⟩
    exact mul_pos h1 h2

theorem mem_connected_nodes {n : ℕ} (a : Agent n) (v : Fin n) :
    v ∈ connected_nodes a ↔
      (v ∈ connected_sensor_list a ∨ v ∈ connected_motor_list a ∨
        v ∈ densely_connected_nodes (stripDiag a.cm) false) := by
  unfold connected_nodes
  rw [(List.perm_insertionSort _ _).mem_iff]
  simp [List.mem_append, or_assoc]

theorem connected_nodes_mem_mono {n : ℕ} (a : Agent n) (i j : Fin n) (w : ℚ)
    (hpos : ∀ x y, 0 ≤ a.cm x y) (hij : a.cm i j = 0) (hw : 0 < w) :
    ∀ v, v ∈ connected_nodes a → v ∈ connected_nodes (updateAgent a i j w) := by
  intro v hv
  have hle := stripDiag_update_le a.cm i j w hij hw
  have hcm' : (updateAgent a i j w).cm = updateEntry a.cm i j w := rfl
  rw [mem_connected_nodes] at hv
  rw [mem_connected_nodes]
  rcases hv with hv | hv | hv
  · left
    unfold connected_sensor_list at hv ⊢
    rw [List.mem_filter] at hv ⊢
    refine ⟨hv.1, ?_⟩
    rw [decide_eq_true_eq] at hv ⊢
    rw [hcm']
    exact lt_of_lt_of_le hv.2 (rowSum_mono _ _ hle v)
  · right; left
    unfold connected_motor_list at hv ⊢
    rw [List.mem_filter] at hv ⊢
    refine ⟨hv.1, ?_⟩
    rw [decide_eq_true_eq] at hv ⊢
    rw [hcm']
    exact lt_of_lt_of_le hv.2 (colSum_mono _ _ hle v)
  · right; right
    unfold densely_connected_nodes at hv ⊢
    simp only [Bool.false_eq_true, if_false, stripDiag_idem] at hv ⊢
    rw [List.mem_filter] at hv ⊢
    refine ⟨hv.1, ?_⟩
    rw [decide_eq_true_eq] at hv ⊢
    rw [hcm']
    have hboth := (mul_sums_pos_iff _ (stripDiag_nonneg a.cm hpos) v).mp hv.2
    exact mul_pos (lt_of_lt_of_le hboth.1 (colSum_mono _ _ hle v))
      (lt_of_lt_of_le hboth.2 (rowSum_mono _ _ hle v))

theorem length_filter_eq_card {n : ℕ} (M : List (Fin n)) (hM : M.Nodup) (p : Fin n → Bool) :
    (M.filter p).length = (M.toFinset.filter fun v => p v = true).card := by
  rw [← List.toFinset_card_of_nodup (hM.filter p), List.toFinset_filter]

theorem count_mono_of_subset {n : ℕ} (cm cm' : Mat n) (S S' M M' : List (Fin n))
    (hS : S.Nodup) (hS' : S'.Nodup) (hM : M.Nodup) (hM' : M'.Nodup)
    (hSs : ∀ v, v ∈ S → v ∈ S') (hMs : ∀ v, v ∈ M → v ∈ M')
    (hcm : ∀ x y, 0 < cm x y → 0 < cm' x y) :
    number_of_connections cm S M ≤ number_of_connections cm' S' M' := by
  unfold number_of_connections
  rw [← List.sum_toFinset _ hS, ← List.sum_toFinset _ hS']
  have hterm : ∀ v : Fin n, (M.filter fun u => decide (0 < cm v u)).length ≤
      (M'.filter fun u => decide (0 < cm' v u)).length := by
    intro v
    rw [length_filter_eq_card M hM _, length_filter_eq_card M' hM' _]
    apply Finset.card_le_card
    intro u hu
    rw [Finset.mem_filter] at hu ⊢
    rw [List.mem_toFinset] at hu ⊢
    rw [decide_eq_true_eq] at hu ⊢
    exact ⟨hMs u hu.1, hcm v u hu.2⟩
  calc ∑ v ∈ S.toFinset, (M.filter fun u => decide (0 < cm v u)).length
      ≤ ∑ v ∈ S.toFinset, (M'.filter fun u => decide (0 < cm' v u)).length :=
        Finset.sum_le_sum fun v _ => hterm v
    _ ≤ ∑ v ∈ S'.toFinset, (M'.filter fun u => decide (0 < cm' v u)).length :=
        Finset.sum_le_sum_of_subset fun v hv =>
          List.mem_toFinset.mpr (hSs v (List.mem_toFinset.mp hv))

theorem connection_index_pool_nodup {n : ℕ} (a : Agent n) (co : Bool) :
    (connection_index_pool a co).Nodup := by
  unfold connection_index_pool
  cases co
  · simp [List.nodup_finRange]
  · simp [List.nodup_dedup]

theorem connection_index_pool_mono {n : ℕ} (a : Agent n) (i j : Fin n) (w : ℚ) (co : Bool)
    (hpos : ∀ x y, 0 ≤ a.cm x y) (hij : a.cm i j = 0) (hw : 0 < w) :
    ∀ v, v ∈ connection_index_pool a co → v ∈ connection_index_pool (updateAgent a i j w) co := by
  intro v hv
  unfold connection_index_pool at hv ⊢
  cases co
  · simp [List.mem_finRange]
  · simp only [if_true] at hv ⊢
    rw [List.mem_dedup] at hv ⊢
    exact connected_nodes_mem_mono a i j w hpos hij hw v hv

theorem filtered_count_mono {n : ℕ} (a : Agent n) (i j : Fin n) (w : ℚ) (co : Bool)
    (hpos : ∀ x y, 0 ≤ a.cm x y) (hij : a.cm i j = 0) (hw : 0 < w)
    (X Y : List (Fin n)) :
    number_of_connections a.cm
      ((connection_index_pool a co).filter fun v => decide (v ∈ X))
      ((connection_index_pool a co).filter fun v => decide (v ∈ Y)) ≤
    number_of_connections (updateAgent a i j w).cm
      ((connection_index_pool (updateAgent a i j w) co).filter fun v => decide (v ∈ X))
      ((connection_index_pool (updateAgent a i j w) co).filter fun v => decide (v ∈ Y)) := by
  have hnd := connection_index_pool_nodup a co
  have hnd' := connection_index_pool_nodup (updateAgent a i j w) co
  have hsub := connection_index_pool_mono a i j w co hpos hij hw
  apply count_mono_of_subset
  · exact hnd.filter _
  · exact hnd'.filter _
  · exact hnd.filter _
  · exact hnd'.filter _
  · intro v hv
    rw [List.mem_filter] at hv ⊢
    exact ⟨hsub v hv.1, hv.2⟩
  · intro v hv
    rw [List.mem_filter] at hv ⊢
    exact ⟨hsub v hv.1, hv.2⟩
  · exact updateEntry_pos_mono a.cm i j w hij hw

/-- C8: replacing a zero entry of the connectivity matrix by a strictly
positive weight never decreases `number_of_connections` for index lists
containing the endpoints, and never decreases any field of
`number_of_connections_by_type` for a type pair covering the endpoints,
whether or not the index sets are first filtered to the connected-node set. -/
theorem countConnections_monotone :
    (∀ (n : ℕ) (cm : Mat n) (A B : List (Fin n)) (i j : Fin n) (w : ℚ),
      i ∈ A → j ∈ B → cm i j = 0 → 0 < w →
      number_of_connections cm A B ≤ number_of_connections (updateEntry cm i j w) A B) ∧
    (∀ (n : ℕ) (a : Agent n) (i j : Fin n) (w : ℚ) (co : Bool),
      (∀ x y, 0 ≤ a.cm x y) → a.cm i j = 0 → 0 < w →
      ((i ∈ a.sensor_ixs ∧ j ∈ a.motor_ixs) →
        (number_of_connections_by_type a co).s_m ≤
          (number_of_connections_by_type (updateAgent a i j w) co).s_m) ∧
      ((i ∈ a.sensor_ixs ∧ j ∈ a.hidden_ixs) →
        (number_of_connections_by_type a co).s_h ≤
          (number_of_connections_by_type (updateAgent a i j w) co).s_h) ∧
      ((i ∈ a.hidden_ixs ∧ j ∈ a.hidden_ixs) →
        (number_of_connections_by_type a co).h_h ≤
          (number_of_connections_by_type (updateAgent a i j w) co).h_h) ∧
      ((i ∈ a.hidden_ixs ∧ j ∈ a.motor_ixs) →
        (number_of_connections_by_type a co).h_m ≤
          (number_of_connections_by_type (updateAgent a i j w) co).h_m)) := by
  constructor
  · intro n cm A B i j w _ _ hij hw
    unfold number_of_connections
    apply List.sum_le_sum
    intro x _
    apply length_filter_mono
    intro y _ hy
    rw [decide_eq_true_eq] at hy ⊢
    exact updateEntry_pos_mono cm i j w hij hw x y hy
  · intro n a i j w co hpos hij hw
    have hs : (updateAgent a i j w).sensor_ixs = a.sensor_ixs := rfl
    have hh : (updateAgent a i j w).hidden_ixs = a.hidden_ixs := rfl
    have hm : (updateAgent a i j w).motor_ixs = a.motor_ixs := rfl
    refine ⟨fun _ => ?_, fun _ => ?_, fun _ => ?_, fun _ => ?_⟩ <;>
      simp only [number_of_connections_by_type, hs, hh, hm] <;>
      exact filtered_count_mono a i j w co hpos hij hw _ _

/-- C8 (witness): adding the edge from sensor 0 to hidden 1 to the all-zero
3-node agent does not decrease the direct count or the filtered `s_h` count. -/
theorem countConnections_monotone_witness :
    ((0 : Fin 3) ∈ [(0 : Fin 3)] ∧ (1 : Fin 3) ∈ [(1 : Fin 3)] ∧
      zeroAgent.cm 0 1 = 0 ∧ (0 : ℚ) < 1 ∧
      number_of_connections zeroAgent.cm [0] [1] ≤
        number_of_connections (updateEntry zeroAgent.cm 0 1 1) [0] [1]) ∧
    ((∀ x y, (0 : ℚ) ≤ zeroAgent.cm x y) ∧
      (0 : Fin 3) ∈ zeroAgent.sensor_ixs ∧ (1 : Fin 3) ∈ zeroAgent.hidden_ixs ∧
      (number_of_connections_by_type zeroAgent true).s_h ≤
        (number_of_connections_by_type (updateAgent zeroAgent 0 1 1) true).s_h) :=
  ⟨⟨by with_unfolding_all decide, by with_unfolding_all decide,
      by with_unfolding_all decide, by with_unfolding_all decide,
      countConnections_monotone.1 3 zeroAgent.cm [0] [1] 0 1 1
        (by with_unfolding_all decide) (by with_unfolding_all decide)
        (by with_unfolding_all decide) (by with_unfolding_all decide)⟩,
    ⟨by with_unfolding_all decide, by with_unfolding_all decide,
      by with_unfolding_all decide,
      (countConnections_monotone.2 3 zeroAgent 0 1 1 true
        (by with_unfolding_all decide) (by with_unfolding_all decide)
        (by with_unfolding_all decide)).2.1
        ⟨by with_unfolding_all decide, by with_unfolding_all decide⟩⟩⟩

end StructuralAgentAnalysis

namespace StructuralAgentAnalysis

/-!
Store model for the frame claim: numpy arrays live in a heap reached through
references, making the in-place diagonal writes and `copy.copy` explicit, so
that not mutating the caller's matrix is a statement about the heap rather
than a triviality of pure functions.
-/

/-- Heap of allocated arrays; a reference is an index into the list. -/
abbrev Store (n : ℕ) : Type := List (Mat n)

/-- Read the array behind reference `r` (the all-zero array as junk default
for a dangling reference, which no well-formed run produces). -/
def readMat {n : ℕ} (st : Store n) (r : ℕ) : Mat n := st.getD r fun _ _ => 0

/-- Allocate a fresh array, returning the new store and the new reference. -/
def allocMat {n : ℕ} (st : Store n) (m : Mat n) : Store n × ℕ := (st ++ [m], st.length)

/-- Embedding of `copy.copy` on a numpy array: allocate a fresh array holding
the same entries, leaving the source untouched. -/
def copyMat {n : ℕ} (st : Store n) (r : ℕ) : Store n × ℕ := allocMat st (readMat st r)

/-- The in-place write `cm[i, i] = 0` through reference `r`. -/
def writeDiagZero {n : ℕ} (st : Store n) (r : ℕ) (i : Fin n) : Store n :=
  st.set r fun x y => if x = i ∧ y = i then 0 else readMat st r x y

/-- The loop `for i in range(len(cm)): cm[i, i] = 0` through reference `r`. -/
def killSelfLoops {n : ℕ} (st : Store n) (r : ℕ) : Store n :=
  (List.finRange n).foldl (fun s i => writeDiagZero s r i) st

/-- `cm = copy.copy(x)` followed by the self-loop-killing loop on the copy:
the new store and the reference to the stripped copy. -/
def strippedCopy {n : ℕ} (st : Store n) (r : ℕ) : Store n × ℕ :=
  let p := copyMat st r
  (killSelfLoops p.1 p.2, p.2)

/-- An agent as the caller holds it: a reference to its connectivity matrix in
the store, plus its index lists. -/
structure AgentRef (n : ℕ) where
  cmRef : ℕ
  sensor_ixs : List (Fin n)
  hidden_ixs : List (Fin n)
  motor_ixs : List (Fin n)

/-- densely_connected_nodes with its mutations explicit: copy the argument
array, strip the diagonal on the copy in place, read the result off the copy. -/
def densely_connected_nodesS {n : ℕ} (st : Store n) (r : ℕ) : List (Fin n) × Store n :=
  let p := strippedCopy st r
  let cm := readMat p.1 p.2
  ((List.finRange n).filter fun i => decide (0 < colSum cm i * rowSum cm i), p.1)

/-- number_of_densely_connected_nodes with its mutations explicit. -/
def number_of_densely_connected_nodesS {n : ℕ} (st : Store n) (r : ℕ) : ℕ × Store n :=
  let p := strippedCopy st r
  let cm := readMat p.1 p.2
  (((List.finRange n).filter fun i => decide (0 < colSum cm i * rowSum cm i)).length, p.1)

/-- connected_nodes with its mutations explicit: one stripped copy of the
agent matrix, then `densely_connected_nodes` takes its own stripped copy of
that copy. -/
def connected_nodesS {n : ℕ} (st : Store n) (ar : AgentRef n) : List (Fin n) × Store n :=
  let p := strippedCopy st ar.cmRef
  let cm := readMat p.1 p.2
  let cS := ar.sensor_ixs.filter fun s => decide (0 < rowSum cm s)
  let cM := ar.motor_ixs.filter fun m => decide (0 < colSum cm m)
  let q := densely_connected_nodesS p.1 p.2
  (List.insertionSort (· ≤ ·) (cS ++ cM ++ q.1), q.2)

/-- number_of_connected_nodes_by_type with its mutations explicit; the sensor
count reads the agent matrix before, the motor count after, the densely
connected count took its private copy. -/
def number_of_connected_nodes_by_typeS {n : ℕ} (st : Store n) (ar : AgentRef n) :
    NumConnectedNodes × Store n :=
  let cS := number_of_connected_sensors (readMat st ar.cmRef) ar.sensor_ixs
  let q := number_of_densely_connected_nodesS st ar.cmRef
  let cH := q.1
  let cM := number_of_connected_motors (readMat q.2 ar.cmRef) ar.motor_ixs
  ({ cN := cS + cH + cM, cS := cS, cH := cH, cM := cM }, q.2)

/-- number_of_connections_by_type with its mutations explicit (they all happen
inside the `connected_nodes` call; the counts then read the agent matrix
through its reference). -/
def number_of_connections_by_typeS {n : ℕ} (st : Store n) (ar : AgentRef n) (co : Bool) :
    NumConnections × Store n :=
  let q : List (Fin n) × Store n :=
    if co then
      let c := connected_nodesS st ar
      (c.1.dedup, c.2)
    else (List.finRange n, st)
  let cm := readMat q.2 ar.cmRef
  let S := q.1.filter fun v => decide (v ∈ ar.sensor_ixs)
  let M := q.1.filter fun v => decide (v ∈ ar.motor_ixs)
  let H := q.1.filter fun v => decide (v ∈ ar.hidden_ixs)
  ({ s_m := number_of_connections cm S M
     s_h := number_of_connections cm S H
     h_h := number_of_connections cm H H
     h_m := number_of_connections cm H M }, q.2)

/-- fullStructuralAnalysis with its mutations explicit: the node-count and
connection-count calls thread the store, then the induced subgraph is read
through the agent reference. -/
def fullStructuralAnalysisS {n : ℕ} (st : Store n) (ar : AgentRef n) (co : Bool) :
    Except String StructuralReport × Store n :=
  let d := number_of_connected_nodes_by_typeS st ar
  let c := number_of_connections_by_typeS d.2 ar co
  let g : Digraph × Store n :=
    if co then
      let ic := connected_nodesS c.2 ar
      let cm := readMat ic.2 ar.cmRef
      (⟨ic.1.length, fun k l => cm (ic.1.get k) (ic.1.get l)⟩, ic.2)
    else (⟨n, readMat c.2 ar.cmRef⟩, c.2)
  ((len_LSCC g.1).bind fun l1 =>
   (len_LWCC g.1).bind fun l2 =>
   (flow_hierarchy g.1).bind fun fh =>
   (average_betweenness_centrality g.1 co).bind fun abc =>
   (average_degree_centrality g.1).bind fun adc =>
   .ok ⟨d.1.cN, d.1.cS, d.1.cH, d.1.cM, c.1.s_m, c.1.s_h, c.1.h_h, c.1.h_m,
        l1, l2, fh, abc, adc⟩, g.2)

theorem readMat_writeDiagZero_ne {n : ℕ} (st : Store n) (r q : ℕ) (i : Fin n)
    (h : q ≠ r) : readMat (writeDiagZero st r i) q = readMat st q := by
  unfold readMat writeDiagZero
  rw [List.getD_eq_getElem?_getD, List.getD_eq_getElem?_getD,
    List.getElem?_set_ne (Ne.symm h)]

theorem writeDiagZero_length {n : ℕ} (st : Store n) (r : ℕ) (i : Fin n) :
    (writeDiagZero st r i).length = st.length := List.length_set st r _

theorem killSelfLoops_length {n : ℕ} (st : Store n) (r : ℕ) :
    (killSelfLoops st r).length = st.length := by
  unfold killSelfLoops
  generalize List.finRange n = L
  induction L generalizing st with
  | nil => rfl
  | cons a t ih =>
    rw [List.foldl_cons, ih, writeDiagZero_length]

theorem readMat_killSelfLoops_ne {n : ℕ} (st : Store n) (r q : ℕ) (h : q ≠ r) :
    readMat (killSelfLoops st r) q = readMat st q := by
  unfold killSelfLoops
  generalize List.finRange n = L
  induction L generalizing st with
  | nil => rfl
  | cons a t ih =>
    rw [List.foldl_cons, ih, readMat_writeDiagZero_ne st r q a h]

theorem readMat_append_lt {n : ℕ} (st : Store n) (m : Mat n) (q : ℕ)
    (h : q < st.length) : readMat (st ++ [m]) q = readMat st q := by
  unfold readMat
  rw [List.getD_eq_getElem?_getD, List.getD_eq_getElem?_getD,
    List.getElem?_append_left h]

theorem strippedCopy_fst_length {n : ℕ} (st : Store n) (r : ℕ) :
    (strippedCopy st r).1.length = st.length + 1 := by
  unfold strippedCopy copyMat allocMat
  rw [killSelfLoops_length, List.length_append]
  rfl

theorem readMat_strippedCopy_lt {n : ℕ} (st : Store n) (r q : ℕ) (h : q < st.length) :
    readMat (strippedCopy st r).1 q = readMat st q := by
  unfold strippedCopy copyMat allocMat
  rw [readMat_killSelfLoops_ne _ _ _ (Nat.ne_of_lt h), readMat_append_lt st _ q h]

/-- A computation step preserves every array allocated before it. -/
def PreservesBelow {n : ℕ} (st st' : Store n) : Prop :=
  st.length ≤ st'.length ∧ ∀ q, q < st.length → readMat st' q = readMat st q

theorem preservesBelow_rfl {n : ℕ} (st : Store n) : PreservesBelow st st :=
  ⟨le_refl _, fun _ _ => rfl⟩

theorem preservesBelow_trans {n : ℕ} {s1 s2 s3 : Store n}
    (h12 : PreservesBelow s1 s2) (h23 : PreservesBelow s2 s3) : PreservesBelow s1 s3 :=
  ⟨le_trans h12.1 h23.1, fun q hq =>
    (h23.2 q (Nat.lt_of_lt_of_le hq h12.1)).trans (h12.2 q hq)⟩

theorem preservesBelow_strippedCopy {n : ℕ} (st : Store n) (r : ℕ) :
    PreservesBelow st (strippedCopy st r).1 :=
  ⟨by rw [strippedCopy_fst_length]; exact Nat.le_succ _,
   fun q hq => readMat_strippedCopy_lt st r q hq⟩

theorem densely_connected_nodesS_preserves {n : ℕ} (st : Store n) (r : ℕ) :
    PreservesBelow st (densely_connected_nodesS st r).2 :=
  preservesBelow_strippedCopy st r

theorem number_of_densely_connected_nodesS_preserves {n : ℕ} (st : Store n) (r : ℕ) :
    PreservesBelow st (number_of_densely_connected_nodesS st r).2 :=
  preservesBelow_strippedCopy st r

theorem connected_nodesS_preserves {n : ℕ} (st : Store n) (ar : AgentRef n) :
    PreservesBelow st (connected_nodesS st ar).2 :=
  preservesBelow_trans (preservesBelow_strippedCopy st ar.cmRef)
    (densely_connected_nodesS_preserves _ _)

theorem number_of_connected_nodes_by_typeS_preserves {n : ℕ} (st : Store n)
    (ar : AgentRef n) : PreservesBelow st (number_of_connected_nodes_by_typeS st ar).2 :=
  number_of_densely_connected_nodesS_preserves st ar.cmRef

theorem number_of_connections_by_typeS_preserves {n : ℕ} (st : Store n)
    (ar : AgentRef n) (co : Bool) :
    PreservesBelow st (number_of_connections_by_typeS st ar co).2 := by
  cases co
  · exact preservesBelow_rfl st
  · exact connected_nodesS_preserves st ar

theorem fullStructuralAnalysisS_preserves {n : ℕ} (st : Store n)
    (ar : AgentRef n) (co : Bool) :
    PreservesBelow st (fullStructuralAnalysisS st ar co).2 := by
  cases co
  · exact preservesBelow_trans (number_of_connected_nodes_by_typeS_preserves st ar)
      (number_of_connections_by_typeS_preserves _ ar false)
  · exact preservesBelow_trans (number_of_connected_nodes_by_typeS_preserves st ar)
      (preservesBelow_trans (number_of_connections_by_typeS_preserves _ ar true)
        (connected_nodesS_preserves _ ar))

/-- C7: none of the classification, counting or full-analysis operations
changes the caller's connectivity matrix: after each call, the array behind
the agent's cm reference is entry-for-entry what it was before the call — all
self-loop removal happens on private copies. -/
theorem analysis_never_mutates_cm {n : ℕ} (st : Store n) (ar : AgentRef n) (co : Bool)
    (h : ar.cmRef < st.length) :
    readMat (connected_nodesS st ar).2 ar.cmRef = readMat st ar.cmRef ∧
    readMat (densely_connected_nodesS st ar.cmRef).2 ar.cmRef = readMat st ar.cmRef ∧
    readMat (number_of_densely_connected_nodesS st ar.cmRef).2 ar.cmRef =
      readMat st ar.cmRef ∧
    readMat (number_of_connections_by_typeS st ar co).2 ar.cmRef = readMat st ar.cmRef ∧
    readMat (fullStructuralAnalysisS st ar co).2 ar.cmRef = readMat st ar.cmRef :=
  ⟨(connected_nodesS_preserves st ar).2 _ h,
   (densely_connected_nodesS_preserves st ar.cmRef).2 _ h,
   (number_of_densely_connected_nodesS_preserves st ar.cmRef).2 _ h,
   (number_of_connections_by_typeS_preserves st ar co).2 _ h,
   (fullStructuralAnalysisS_preserves st ar co).2 _ h⟩

/-- C7 (witness): a one-array store holding the example matrix. -/
theorem analysis_never_mutates_cm_witness :
    (0 : ℕ) < ([exampleCm] : Store 4).length ∧
    readMat (fullStructuralAnalysisS [exampleCm] ⟨0, [0], [1, 2], [3]⟩ true).2 0 =
      readMat ([exampleCm] : Store 4) 0 :=
  ⟨by decide,
    (analysis_never_mutates_cm [exampleCm] ⟨0, [0], [1, 2], [3]⟩ true (by decide)).2.2.2.2⟩

end StructuralAgentAnalysis
